import Mathlib

/-!
Shallow embedding of `rectangles-text-view-util` (src/main.py, class
`RectTextViewer`) in Lean 4.

Cell values of the grid follow the source constants:
`_EMPTY_FILLER_INT = -2`, `_BOUND_FILLER_INT = -1`, digits `0..9`.
Grids produced by `to_array` are numpy `int8` arrays; arithmetic on their
cells wraps modulo 2^8, which we model with `wrap8` on `Int`.
A grid is a list of rows, each row a list of cell values; numpy's 2-D
indexing `arr[x, y]` becomes `getCell`, slice assignments become the
`setRowRange` / `setColRange` / `writeDigits` helpers (numpy slices clip at
the array border, which the index-guarded maps reproduce).
-/

def EMPTY : Int := -2
def BOUND : Int := -1

def FILLERS : List Int := [BOUND, EMPTY]

/-- Signed 8-bit wraparound, the arithmetic of a numpy `int8` cell. -/
def wrap8 (v : Int) : Int := (v + 128) % 256 - 128

abbrev Grid := List (List Int)

def getRow (g : Grid) (x : Nat) : List Int := g.getD x []

def getCell (g : Grid) (x y : Nat) : Int := (getRow g x).getD y EMPTY

/-- Indexed map starting at index `i`, used to model numpy's clipped slice
assignments (cells outside the list are simply not there to write). -/
def mapIdxFrom (f : Nat → α → α) : Nat → List α → List α
  | _, [] => []
  | i, a :: t => f i a :: mapIdxFrom f (i + 1) t

/-- Slice assignment `row[lo:hi] = v` on one row (scalar broadcast). -/
def setRange (row : List Int) (lo hi : Nat) (v : Int) : List Int :=
  mapIdxFrom (fun j x => if lo ≤ j ∧ j < hi then v else x) 0 row

/-- Slice assignment `arr[r, lo:hi] = v`. -/
def setRowRange (g : Grid) (r lo hi : Nat) (v : Int) : Grid :=
  mapIdxFrom (fun i row => if i = r then setRange row lo hi v else row) 0 g

/-- Slice assignment `arr[lo:hi, c] = v`. -/
def setColRange (g : Grid) (lo hi c : Nat) (v : Int) : Grid :=
  mapIdxFrom
    (fun i row =>
      if lo ≤ i ∧ i < hi then
        mapIdxFrom (fun j x => if j = c then v else x) 0 row
      else row)
    0 g

/-- Slice assignment `arr[r, c : c + ds.length] = ds` with a vector; only
invoked when the slice really has length `ds.length`, the other case being
the broadcast error modelled in `drawRect`. -/
def writeDigits (g : Grid) (r c : Nat) (ds : List Int) : Grid :=
  mapIdxFrom
    (fun i row =>
      if i = r then
        mapIdxFrom
          (fun j x => if c ≤ j ∧ j < c + ds.length then ds.getD (j - c) 0 else x)
          0 row
      else row)
    0 g

/-- Region blanking `arr[x1 : x2 + 1, y1 : y2 + 1] = EMPTY` (bounds
inclusive, the decoder's clearing step
`arr_cp[x:_x+1, y:_y+1] = _EMPTY_FILLER_INT`). -/
def clearRegion (g : Grid) (x1 x2 y1 y2 : Nat) : Grid :=
  mapIdxFrom
    (fun i row =>
      if x1 ≤ i ∧ i ≤ x2 then
        mapIdxFrom (fun j x => if y1 ≤ j ∧ j ≤ y2 then EMPTY else x) 0 row
      else row)
    0 g

/-- Decimal digits of a number, most significant first: `[int(s) for s in str(i)]`.
Fuel-based so that the kernel can evaluate it; `digitsAux (n+1) n` always has
enough fuel. -/
def digitsAux : Nat → Nat → List Int
  | 0, _ => []
  | fuel + 1, n => if n = 0 then [] else digitsAux fuel (n / 10) ++ [((n % 10 : Nat) : Int)]

def decDigits (n : Nat) : List Int := digitsAux (n + 1) n

/-- A rectangle row `(x1, y1, x2, y2)` of the `rects` array: one-based,
inclusive coordinates, `x` the row dimension. -/
structure Rect where
  x1 : Int
  y1 : Int
  x2 : Int
  y2 : Int
  deriving DecidableEq, Repr

/-- The exceptions the source can raise, as data.  `assertPositive` is the
bare `assert (rectangles > 0).all()` (an `AssertionError` carrying no list of
rectangles), `badRects` the `ValueError` that prints `rectangles[bad_rects_mask]`,
`badChar` Python's `int(v)` ValueError (it shows the character, not its
position), `ragged` numpy's inhomogeneous-shape error (no position either),
`broadcast` numpy's shape-mismatch error when a label is longer than the room
left in its row, `emptyReduce` numpy's zero-size reduction error from
`.max()` on an empty rectangle array, `indexError` an out-of-bounds 2-D index,
`assertHole` the decoder's `assert not has_hole`. -/
inductive Err where
  | noRects
  | unlabeled
  | indexError
  | rightNotMatched (x y : Nat)
  | bottomNotMatched (x y : Nat)
  | assertHole
  | labelGap (missing : List Int)
  | mismatch
  | emptyReduce
  | broadcast
  | assertPositive
  | badRects (bad : List Rect)
  | fuelOut
  | badChar (c : Char)
  | ragged
  deriving DecidableEq, Repr

def rectPositive (r : Rect) : Bool :=
  decide (0 < r.x1 ∧ 0 < r.y1 ∧ 0 < r.x2 ∧ 0 < r.y2)

def rectDegenerate (r : Rect) : Bool :=
  decide (r.x2 ≤ r.x1 ∨ r.y2 ≤ r.y1)

/-- Source `RectTextViewer.__init__`: first `assert (rectangles > 0).all()`, then the
`ValueError` listing `rectangles[bad_rects_mask]` where the mask is
`(x1 >= x2) | (y1 >= y2)`.  On success the viewer just holds the rows. -/
def construct (rs : List Rect) : Except Err (List Rect) :=
  if rs.all rectPositive then
    if (rs.filter rectDegenerate).isEmpty then .ok rs
    else .error (.badRects (rs.filter rectDegenerate))
  else .error .assertPositive

/-- The four boundary strokes of one rectangle, in source order:
`arr[x1, y1:y2]`, `arr[x2-1, y1:y2]`, `arr[x1:x2, y1]`, `arr[x1:x2, y2-1]`
(after the source's `x1 -= 1; y1 -= 1`).  Coordinates are nonnegative for
every rectangle admitted by `construct`. -/
def drawBounds (g : Grid) (r : Rect) : Grid :=
  let x1 := (r.x1 - 1).toNat
  let y1 := (r.y1 - 1).toNat
  let x2 := r.x2.toNat
  let y2 := r.y2.toNat
  let g1 := setRowRange g x1 y1 y2 BOUND
  let g2 := setRowRange g1 (x2 - 1) y1 y2 BOUND
  let g3 := setColRange g2 x1 x2 y1 BOUND
  setColRange g3 x1 x2 (y2 - 1) BOUND

/-- One iteration of the encoder loop: frame plus, when `show_order`, the
label digits `arr[x1, y1 : y1 + len] = numbers`.  When the slice clips short
of `len` numpy fails to broadcast the digit vector, hence the error. -/
def drawRect (g : Grid) (i : Nat) (r : Rect) (show_order : Bool) : Except Err Grid :=
  let gb := drawBounds g r
  if show_order then
    let x1 := (r.x1 - 1).toNat
    let y1 := (r.y1 - 1).toNat
    let ds := decDigits i
    if y1 + ds.length ≤ (getRow gb x1).length then .ok (writeDigits gb x1 y1 ds)
    else .error .broadcast
  else .ok gb

def toArrayGo (show_order : Bool) : Grid → Nat → List Rect → Except Err Grid
  | g, _, [] => .ok g
  | g, i, r :: rest =>
    match drawRect g i r show_order with
    | .ok g2 => toArrayGo show_order g2 (i + 1) rest
    | .error e => .error e

/-- Source `RectTextViewer.to_array`: a grid of shape
`(rects[:,2].max(), rects[:,3].max())` filled with `EMPTY`, then each
rectangle drawn in order with labels `1, 2, ...`.  On an empty rectangle
array `.max()` raises numpy's zero-size reduction error. -/
def to_array (rects : List Rect) (show_order : Bool) : Except Err Grid :=
  match rects with
  | [] => .error .emptyReduce
  | r0 :: rest =>
    let xmax := (rest.foldl (fun m r => max m r.x2) r0.x2).toNat
    let ymax := (rest.foldl (fun m r => max m r.y2) r0.y2).toNat
    toArrayGo show_order (List.replicate xmax (List.replicate ymax EMPTY)) 1 (r0 :: rest)

def isFiller (v : Int) : Bool := decide (v = BOUND ∨ v = EMPTY)

def allCells (g : Grid) (p : Int → Bool) : Bool := g.all fun row => row.all p

/-- Index of the first non-filler (digit) cell of a row. -/
def firstDigitIdx (row : List Int) : Option Nat :=
  row.findIdx? fun v => ¬ isFiller v

/-- The origin scan: first row, top to bottom, holding a digit, and the first
digit column in it. -/
def findOriginAux : Grid → Nat → Option (Nat × Nat)
  | [], _ => none
  | row :: rest, x =>
    match firstDigitIdx row with
    | some y => some (x, y)
    | none => findOriginAux rest (x + 1)

def findOrigin (g : Grid) : Option (Nat × Nat) := findOriginAux g 0

/-- Iteration domain of Python's `range(a, b)` over `Nat`. -/
def natRange (a b : Nat) : List Nat := (List.range (b - a)).map (a + ·)

/-- The right-bound loop `for _y in range(y+1, W)` over a found origin.
`row` is the origin row, `below` the row under it, `n` the label accumulator
(8-bit, see `wrap8`), `check` the `check_next_digits` flag.  Returns the
final `_y` together with the accumulated label.  On exhaustion Python's loop
variable keeps the last value `W - 1` (the loop range is nonempty whenever
the hole probe at `(x+1, y+1)` did not already raise). -/
def seekRightAux (hasHole : Bool) (below row : List Int) (x y W : Nat) :
    List Nat → Int → Bool → Except Err (Nat × Int)
  | [], n, _ =>
    if hasHole then .error (.rightNotMatched x y) else .ok (W - 1, n)
  | c :: rest, n, check =>
    let v := (row.getD c EMPTY)
    if v = EMPTY ∨ (v ≠ BOUND ∧ ¬ check) then
      if hasHole then .error .assertHole else .ok (c - 1, n)
    else
      let n2 := if check ∧ v ≠ BOUND then wrap8 (10 * n + v) else n
      let check2 := if check ∧ v = BOUND then false else check
      if hasHole ∧ below.getD c EMPTY = BOUND then .ok (c, n2)
      else seekRightAux hasHole below row x y W rest n2 check2

/-- The bottom-bound loop `for _x in range(x+1, H)`. -/
def seekBottomAux (hasHole : Bool) (g : Grid) (x y H : Nat) :
    List Nat → Except Err Nat
  | [] => if hasHole then .error (.bottomNotMatched x y) else .ok (H - 1)
  | r :: rest =>
    if getCell g r y ≠ BOUND then
      if hasHole then .error .assertHole else .ok (r - 1)
    else if hasHole ∧ getCell g r (y + 1) = BOUND then .ok r
    else seekBottomAux hasHole g x y H rest

/-- A decoded box `(x, y, _x, _y)`, zero-based inclusive. -/
abbrev Box := Nat × Nat × Nat × Nat

/-- Dict assignment `rects[n] = box` with Python semantics: overwrite in
place if the key exists, else append (insertion order preserved). -/
def dictInsert (l : List (Int × Box)) (k : Int) (v : Box) : List (Int × Box) :=
  if l.any (fun p => p.1 = k) then
    l.map fun p => if p.1 = k then (k, v) else p
  else l ++ [(k, v)]

def dictKeys (l : List (Int × Box)) : List Int := l.map Prod.fst

/-- The decoder's main `while True` loop.  Each pass finds the next origin,
probes `(x+1, y+1)` for a hole (an out-of-range probe is numpy's
`IndexError`), runs the two bound searches, records the box under the
accumulated label and blanks the region.  `fuel` only caps the recursion;
`H*W + 1` passes always suffice because every pass blanks its origin cell. -/
def scanLoopAux (H W : Nat) : Nat → Grid → List (Int × Box) →
    Except Err (List (Int × Box))
  | 0, _, _ => .error .fuelOut
  | fuel + 1, g, acc =>
    match findOrigin g with
    | none => .ok acc
    | some (x, y) =>
      if x + 1 < H ∧ y + 1 < W then
        match seekRightAux (decide (getCell g (x + 1) (y + 1) = EMPTY)) (getRow g (x + 1))
            (getRow g x) x y W (natRange (y + 1) W) (getCell g x y) true with
        | .error e => .error e
        | .ok (ry, n) =>
          match seekBottomAux (decide (getCell g (x + 1) (y + 1) = EMPTY)) g x y H
              (natRange (x + 1) H) with
          | .error e => .error e
          | .ok rx =>
            scanLoopAux H W fuel (clearRegion g x rx y ry)
              (dictInsert acc n (x, y, rx, ry))
      else .error .indexError

def scanLoop (g : Grid) : Except Err (List (Int × Box)) :=
  let H := g.length
  let W := (getRow g 0).length
  scanLoopAux H W (H * W + 1) g []

/-- The list `[a, a+1, ..., b]` over `Int`: `np.arange(a, b + 1)`. -/
def intRange (a b : Int) : List Int :=
  (List.range (b + 1 - a).toNat).map fun i : Nat => a + (i : Int)

def lookupBox (l : List (Int × Box)) (k : Int) : Box :=
  ((l.find? fun p => p.1 = k).map Prod.snd).getD (0, 0, 0, 0)

/-- Last element of the nonempty list `a :: rest`: `numbers[-1]`. -/
def lastElem (a : Int) : List Int → Int
  | [] => a
  | b :: t => lastElem b t

/-- The decoder's post-processing: sort the collected labels, require them to
fill `arange(numbers[0], numbers[-1] + 1)` and return the boxes in ascending
label order; a gap raises the `ValueError` listing
`[a for a in all_numbers if a not in numbers]`.  On an empty collection
`numbers[0]` would be an `IndexError`. -/
def postProcess (rects : List (Int × Box)) : Except Err (List Box) :=
  match List.insertionSort (fun a b => a ≤ b) (dictKeys rects) with
  | [] => .error .indexError
  | n0 :: rest =>
    let nums := n0 :: rest
    let alln := intRange n0 (lastElem n0 rest)
    if nums.length ≠ alln.length then
      .error (.labelGap (alln.filter fun a => ¬ nums.contains a))
    else
      .ok (nums.map fun n => lookupBox rects n)

/-- The decoder's missing-label list, exactly the expression
`[a for a in all_numbers if a not in numbers]` of the gap check. -/
def theMissing (rects : List (Int × Box)) : List Int :=
  match List.insertionSort (fun a b => a ≤ b) (dictKeys rects) with
  | [] => []
  | n0 :: rest =>
    (intRange n0 (lastElem n0 rest)).filter fun a => ¬ (n0 :: rest).contains a

def boxToRect (b : Box) : Rect :=
  ⟨(b.1 : Int) + 1, (b.2.1 : Int) + 1, (b.2.2.1 : Int) + 1, (b.2.2.2 : Int) + 1⟩

/-- The characters Python's `str.strip()` removes: the full Unicode
whitespace set of CPython 3.11 (Unicode 14.0), that is every code point `c`
with `chr(c).strip() == ''`. -/
def isPySpace (c : Char) : Bool :=
  decide (c.toNat ∈
    [0x9, 0xa, 0xb, 0xc, 0xd, 0x1c, 0x1d, 0x1e, 0x1f, 0x20, 0x85, 0xa0,
     0x1680, 0x2000, 0x2001, 0x2002, 0x2003, 0x2004, 0x2005, 0x2006, 0x2007,
     0x2008, 0x2009, 0x200a, 0x2028, 0x2029, 0x202f, 0x205f, 0x3000])

def pyStrip (cs : List Char) : List Char :=
  ((cs.dropWhile isPySpace).reverse.dropWhile isPySpace).reverse

/-- The single characters that end a line for Python `str.splitlines()`
(CPython 3.11): newline, vertical tab, form feed, carriage return, the
three information separators, next line, and the two Unicode line and
paragraph separators.  The pair `"\r\n"` counts as one boundary and is
handled in `pySplitlinesAux`. -/
def isLineBoundary (c : Char) : Bool :=
  decide (c.toNat ∈ [0xa, 0xb, 0xc, 0xd, 0x1c, 0x1d, 0x1e, 0x85, 0x2028, 0x2029])

def pySplitlinesAux : List Char → List Char → List (List Char)
  | acc, [] => if acc.isEmpty then [] else [acc.reverse]
  | acc, '\r' :: '\n' :: t => acc.reverse :: pySplitlinesAux [] t
  | acc, c :: t =>
    if isLineBoundary c then acc.reverse :: pySplitlinesAux [] t
    else pySplitlinesAux (c :: acc) t

/-- Python `str.splitlines()`: every boundary character ends a line, with
`"\r\n"` consumed as a single boundary; a trailing boundary opens no
further empty line, and the empty string has no lines. -/
def pySplitlines (cs : List Char) : List (List Char) :=
  pySplitlinesAux [] cs

/-- Start code points of the runs of ten consecutive decimal digits that
Python's `int()` converts (CPython 3.11, Unicode 14.0).  Every single
character `int()` accepts lies in exactly one run `s .. s + 9` and converts
to the value `c - s`; every other character raises `ValueError`. -/
def pyDigitRunStarts : List Nat :=
  [0x30, 0x660, 0x6f0, 0x7c0, 0x966, 0x9e6, 0xa66, 0xae6, 0xb66, 0xbe6,
   0xc66, 0xce6, 0xd66, 0xde6, 0xe50, 0xed0, 0xf20, 0x1040, 0x1090, 0x17e0,
   0x1810, 0x1946, 0x19d0, 0x1a80, 0x1a90, 0x1b50, 0x1bb0, 0x1c40, 0x1c50, 0xa620,
   0xa8d0, 0xa900, 0xa9d0, 0xa9f0, 0xaa50, 0xabf0, 0xff10, 0x104a0, 0x10d30, 0x11066,
   0x110f0, 0x11136, 0x111d0, 0x112f0, 0x11450, 0x114d0, 0x11650, 0x116c0, 0x11730, 0x118e0,
   0x11950, 0x11c50, 0x11d50, 0x11da0, 0x16a60, 0x16ac0, 0x16b50, 0x1d7ce, 0x1d7d8, 0x1d7e2,
   0x1d7ec, 0x1d7f6, 0x1e140, 0x1e2f0, 0x1e950, 0x1fbf0]

/-- The value Python's `int(v)` gives a single character, or `none` when it
raises: a Unicode decimal digit maps to its digit value. -/
def pyDecimalVal (c : Char) : Option Int :=
  match pyDigitRunStarts.find? (fun s => decide (s ≤ c.toNat ∧ c.toNat < s + 10)) with
  | some s => some ((c.toNat - s : Nat) : Int)
  | none => none

/-- One character of the text codec: `' '` ↦ `EMPTY`, `'#'` ↦ `BOUND`,
else Python's `int(v)` — the value of a Unicode decimal digit, or a
`ValueError` showing the character (and nothing about where it sits). -/
def parseCellChar (c : Char) : Except Err Int :=
  if c = ' ' then .ok EMPTY
  else if c = '#' then .ok BOUND
  else
    match pyDecimalVal c with
    | some d => .ok d
    | none => .error (.badChar c)

def parseLine : List Char → Except Err (List Int)
  | [] => .ok []
  | c :: cs =>
    match parseCellChar c with
    | .error e => .error e
    | .ok v =>
      match parseLine cs with
      | .error e => .error e
      | .ok vs => .ok (v :: vs)

def parseLines : List (List Char) → Except Err (List (List Int))
  | [] => .ok []
  | l :: ls =>
    match parseLine l with
    | .error e => .error e
    | .ok r =>
      match parseLines ls with
      | .error e => .error e
      | .ok rs => .ok (r :: rs)

/-- The `np.array([[...] for line in s.strip().splitlines()])` expression of
`RectTextViewer.from_string`: every character converted in reading order
(the first unrecognized one raising), then numpy's rejection of ragged rows
(an error that again names no line or column). -/
def parseGrid (s : String) : Except Err Grid :=
  match parseLines (pySplitlines (pyStrip s.data)) with
  | .error e => .error e
  | .ok rows =>
    match rows with
    | [] => .ok []
    | r :: rs => if rs.all (fun l => l.length = r.length) then .ok (r :: rs) else .error .ragged

/-- Source `RectTextViewer.from_array`.  The two precondition checks on
`np.unique(arr)`, the scan loop, the label-gap check, the validating
constructor on the recovered coordinates `+ 1`, and the self-verification
that re-encodes the candidate with labels and compares with the input. -/
def from_array (arr : Grid) : Except Err (List Rect) :=
  if allCells arr (fun v => v = EMPTY) then .error .noRects
  else if allCells arr isFiller then .error .unlabeled
  else
    match scanLoop arr with
    | .error e => .error e
    | .ok rects =>
      match postProcess rects with
      | .error e => .error e
      | .ok boxes =>
        match construct (boxes.map boxToRect) with
        | .error e => .error e
        | .ok result =>
          match to_array result true with
          | .error e => .error e
          | .ok g2 => if g2 = arr then .ok result else .error .mismatch

/-- Source `RectTextViewer.from_string`: parse the text block, then decode. -/
def from_string (s : String) : Except Err (List Rect) :=
  match parseGrid s with
  | .error e => .error e
  | .ok g => from_array g

/-- The exact decimal reading of a digit list, most significant first:
`n = 10 * n + v` over unbounded integers, started from `a`. -/
def decValFrom (a : Int) (ds : List Int) : Int :=
  ds.foldl (fun x d => 10 * x + d) a

def decVal (ds : List Int) : Int := decValFrom 0 ds

/-- The decoder's label accumulation as it actually runs on an `int8` grid:
`n = 10 * n + v` with every step wrapped to 8 signed bits (the same update
`wrap8 (10 * n + v)` that `seekRightAux` applies). -/
def acc8From (a : Int) (ds : List Int) : Int :=
  ds.foldl (fun x d => wrap8 (10 * x + d)) a

def acc8 (ds : List Int) : Int := acc8From 0 ds

/-- The character alphabet `from_string` accepts: the two filler symbols and
the decimal digits `int()` converts. -/
def recognizedChar (c : Char) : Bool :=
  c == ' ' || c == '#' || (pyDecimalVal c).isSome

/-- Total version of the codec's character value, meaningful on recognized
characters. -/
def charVal (c : Char) : Int :=
  if c = ' ' then EMPTY else if c = '#' then BOUND else (pyDecimalVal c).getD 0

/-- The whole-rectangle validity invariant of the data model. -/
def rectValid (r : Rect) : Prop :=
  0 < r.x1 ∧ 0 < r.y1 ∧ 0 < r.x2 ∧ 0 < r.y2 ∧ r.x1 < r.x2 ∧ r.y1 < r.y2

/-- The five rectangles of the nested/hole doctest. -/
def ex5 : List Rect :=
  [⟨1, 1, 2, 3⟩, ⟨1, 4, 2, 8⟩, ⟨3, 4, 6, 7⟩, ⟨3, 1, 6, 2⟩, ⟨3, 8, 7, 9⟩]

/-- The labeled 7x9 grid the nested/hole doctest encodes to. -/
def grid5 : Grid :=
  [[1, -1, -1, 2, -1, -1, -1, -1, -2],
   [-1, -1, -1, -1, -1, -1, -1, -1, -2],
   [4, -1, -2, 3, -1, -1, -1, 5, -1],
   [-1, -1, -2, -1, -2, -2, -1, -1, -1],
   [-1, -1, -2, -1, -2, -2, -1, -1, -1],
   [-1, -1, -2, -1, -1, -1, -1, -1, -1],
   [-2, -2, -2, -2, -2, -2, -2, -1, -1]]

/-- Two labeled boxes carrying labels 1 and 3 and no label 2. -/
def grid13 : Grid :=
  [[1, -1, -1, -2, 3, -1, -1],
   [-1, -1, -1, -2, -1, -1, -1]]

/-- A single frame whose label digits read 128, one past the `int8` maximum. -/
def grid128 : Grid :=
  [[1, 2, 8, -1],
   [-1, -1, -1, -1]]

/-- The smallest decodable grid: one frame labeled 1. -/
def grid1 : Grid :=
  [[1, -1, -1],
   [-1, -1, -1]]

/-- A hundred stacked rectangles; the last one is only two cells wide, so its
three-digit label 100 runs past its own right edge. -/
def ex100 : List Rect :=
  List.replicate 99 ⟨1, 1, 2, 3⟩ ++ [⟨1, 1, 2, 2⟩]

/-- Text blocks with an unrecognized character at different positions. -/
def strBadA : String := "x#\n##"

def strBadB : String := "#x\n##"

/-- Text blocks whose lines disagree in length, in different ways. -/
def strRagA : String := "##\n#"

def strRagB : String := "#\n##"

def strOk : String := "1##\n###"

/-- The same grid with a carriage-return line boundary: `splitlines` splits
it into two lines just like a newline. -/
def strCR : String := "1##\r###"

/-- The same grid with a fullwidth digit one, a non-ASCII decimal digit
that Python's `int()` converts to 1. -/
def strUni : String := "１##\n###"

set_option maxRecDepth 100000

theorem wrap8_lb (v : Int) : -128 ≤ wrap8 v := by
  unfold wrap8; omega

theorem wrap8_ub (v : Int) : wrap8 v ≤ 127 := by
  unfold wrap8; omega

theorem wrap8_id {v : Int} (h1 : -128 ≤ v) (h2 : v ≤ 127) : wrap8 v = v := by
  unfold wrap8; omega

theorem decValFrom_cons (a d : Int) (t : List Int) :
    decValFrom a (d :: t) = decValFrom (10 * a + d) t := rfl

theorem acc8From_cons (a d : Int) (t : List Int) :
    acc8From a (d :: t) = acc8From (wrap8 (10 * a + d)) t := rfl

theorem decValFrom_ge (ds : List Int) (hd : ∀ d ∈ ds, 0 ≤ d) :
    ∀ a : Int, 0 ≤ a → a ≤ decValFrom a ds := by
  induction ds with
  | nil => intro a _; simp [decValFrom]
  | cons d t IH =>
    intro a ha
    have hd0 : 0 ≤ d := hd d (by simp)
    have hrec := IH (fun x hx => hd x (by simp [hx])) (10 * a + d) (by omega)
    rw [decValFrom_cons]
    omega

theorem acc8From_eq (ds : List Int) (hd : ∀ d ∈ ds, 0 ≤ d ∧ d ≤ 9) :
    ∀ a : Int, 0 ≤ a → decValFrom a ds ≤ 127 → acc8From a ds = decValFrom a ds := by
  induction ds with
  | nil => intro a _ _; rfl
  | cons d t IH =>
    intro a ha hle
    obtain ⟨hd0, _⟩ := hd d (by simp)
    have hdt : ∀ x ∈ t, 0 ≤ x ∧ x ≤ 9 := fun x hx => hd x (by simp [hx])
    rw [decValFrom_cons] at hle
    have hp : (0 : Int) ≤ 10 * a + d := by omega
    have hmono := decValFrom_ge t (fun x hx => (hdt x hx).1) (10 * a + d) hp
    rw [acc8From_cons, decValFrom_cons, wrap8_id (by omega) (by omega)]
    exact IH hdt (10 * a + d) hp hle

theorem acc8From_bounds (ds : List Int) :
    ∀ a : Int, -128 ≤ a → a ≤ 127 → -128 ≤ acc8From a ds ∧ acc8From a ds ≤ 127 := by
  induction ds with
  | nil => intro a h1 h2; exact ⟨h1, h2⟩
  | cons d t IH =>
    intro a _ _
    rw [acc8From_cons]
    exact IH _ (wrap8_lb _) (wrap8_ub _)

/-- C8: when the decoder reads a multi-digit label out of an `int8` grid the
accumulation `n = 10 * n + v` happens in 8-bit signed arithmetic, so the
recovered label equals the decimal number written in the grid exactly when
that number fits under 127, and larger labels wrap around: the digits `128`
accumulate to `-128`, which is also what the scan loop records for a frame
labeled `128`. -/
theorem label_accumulation_int8 :
    (∀ ds : List Int, (∀ d ∈ ds, 0 ≤ d ∧ d ≤ 9) →
      (acc8 ds = decVal ds ↔ decVal ds ≤ 127)) ∧
    decVal [1, 2, 8] = 128 ∧ acc8 [1, 2, 8] = -128 ∧
    scanLoop grid128 = .ok [(-128, (0, 0, 1, 3))] := by
  refine ⟨?_, rfl, rfl, rfl⟩
  intro ds hd
  constructor
  · intro he
    have hge : (0 : Int) ≤ decVal ds :=
      decValFrom_ge ds (fun d hdm => (hd d hdm).1) 0 (by omega)
    have hb := (acc8From_bounds ds 0 (by omega) (by omega)).2
    unfold acc8 at he
    omega
  · intro hle
    unfold acc8 decVal
    exact acc8From_eq ds hd 0 (by omega) hle

theorem label_accumulation_int8_check : acc8 [1, 3] = decVal [1, 3] :=
  (label_accumulation_int8.1 [1, 3] (by decide)).mpr (by decide)

/-- C10: an empty rectangle array of shape 0x4 passes every constructor
check vacuously, but encoding it fails with numpy's zero-size reduction
error from `.max()` instead of returning an empty grid. -/
theorem empty_ctor_encode :
    construct [] = .ok [] ∧
    to_array [] true = .error .emptyReduce ∧
    to_array [] false = .error .emptyReduce :=
  ⟨rfl, rfl, rfl⟩

/-- C1: the nested/hole five-rectangle set encodes (labels on) to a 7x9
grid whose decode reproduces exactly the same five rectangles in the same
order. -/
theorem roundTrip_nested :
    to_array ex5 true = .ok grid5 ∧
    grid5.length = 7 ∧ grid5.map List.length = List.replicate 7 9 ∧
    from_array grid5 = .ok ex5 :=
  ⟨rfl, rfl, rfl, rfl⟩

/-- C6: a grid that is entirely `EMPTY` is rejected up front with the
no-rectangles error, and a digit-free grid of fillers only is rejected with
the all-unlabeled error; in both cases `from_array` returns no rectangle
set. -/
theorem decode_precondition_errors : ∀ g : Grid,
    (allCells g (fun v => v = EMPTY) = true → from_array g = .error .noRects) ∧
    (allCells g isFiller = true → allCells g (fun v => v = EMPTY) = false →
      from_array g = .error .unlabeled) := by
  intro g
  constructor
  · intro h; unfold from_array; simp [h]
  · intro h1 h2; unfold from_array; simp [h1, h2]

theorem decode_precondition_errors_check :
    from_array [[-2, -2], [-2, -2]] = .error .noRects ∧
    from_array [[-1, -1], [-1, -2]] = .error .unlabeled :=
  ⟨(decode_precondition_errors _).1 (by decide),
   (decode_precondition_errors _).2 (by decide) (by decide)⟩

theorem mapIdxFrom_getD (f : Nat → α → α) :
    ∀ (l : List α) (k i : Nat) (d : α),
      (mapIdxFrom f k l).getD i d = if i < l.length then f (k + i) (l.getD i d) else d := by
  intro l
  induction l with
  | nil => intro k i d; simp [mapIdxFrom]
  | cons a t IH =>
    intro k i d
    cases i with
    | zero => simp [mapIdxFrom]
    | succ j =>
      simp only [mapIdxFrom, List.getD_cons_succ, List.length_cons]
      rw [IH (k + 1) j d]
      by_cases hj : j < t.length
      · rw [if_pos hj, if_pos (by omega)]
        congr 1
        omega
      · rw [if_neg hj, if_neg (by omega)]

theorem getD_oob {l : List α} {i : Nat} {d : α} (h : l.length ≤ i) : l.getD i d = d := by
  simp [List.getD_eq_getElem?_getD, List.getElem?_eq_none h]

/-- C3 (amended): writing the label digits changes at most the cells of row
`r` at columns `c .. c + len - 1`; with `showLabels` on, a drawn rectangle
differs from its plain frame only inside that digit window of its own top
row.  The window starts at the rectangle's top-left corner but its right end
is `y1 + len - 1`, not `y2`: a label longer than the rectangle's width keeps
writing past `y2` into later columns of the same row. -/
theorem labelDigits_frame :
    (∀ (g : Grid) (r c : Nat) (ds : List Int) (a b : Nat),
      ¬(a = r ∧ c ≤ b ∧ b < c + ds.length) →
      getCell (writeDigits g r c ds) a b = getCell g a b) ∧
    (∀ (g : Grid) (i : Nat) (r : Rect) (g2 : Grid) (a b : Nat),
      drawRect g i r true = .ok g2 →
      ¬(a = (r.x1 - 1).toNat ∧ (r.y1 - 1).toNat ≤ b ∧
          b < (r.y1 - 1).toNat + (decDigits i).length) →
      getCell g2 a b = getCell (drawBounds g r) a b) := by
  have frame : ∀ (g : Grid) (r c : Nat) (ds : List Int) (a b : Nat),
      ¬(a = r ∧ c ≤ b ∧ b < c + ds.length) →
      getCell (writeDigits g r c ds) a b = getCell g a b := by
    intro g r c ds a b h
    unfold getCell getRow writeDigits
    rw [mapIdxFrom_getD]
    by_cases ha : a < g.length
    · rw [if_pos ha, Nat.zero_add]
      by_cases har : a = r
      · subst har
        rw [if_pos rfl, mapIdxFrom_getD]
        by_cases hb : b < (g.getD a []).length
        · rw [if_pos hb, Nat.zero_add, if_neg (by omega)]
        · rw [if_neg hb, getD_oob (by omega)]
      · rw [if_neg har]
    · rw [if_neg ha, getD_oob (show ([] : List Int).length ≤ b by simp),
        getD_oob (show (g.getD a []).length ≤ b from le_trans (le_of_eq (by
          rw [getD_oob (by omega)]; rfl)) (Nat.zero_le b))]
  refine ⟨frame, ?_⟩
  intro g i r g2 a b hok h
  unfold drawRect at hok
  simp only [if_pos] at hok
  split at hok
  · injection hok with hok2
    rw [← hok2]
    exact frame (drawBounds g r) _ _ _ a b h
  · exact Except.noConfusion hok

theorem labelDigits_frame_check :
    getCell (writeDigits [[0, 0], [0, 0]] 0 0 [5]) 1 1 = getCell [[0, 0], [0, 0]] 1 1 :=
  labelDigits_frame.1 [[0, 0], [0, 0]] 0 0 [5] 1 1 (by decide)

/-- C3 (counterexample to the claim as stated): rectangle `(1,1,2,2)` has
column span `y1..y2 = 1..2`, yet drawing it with label 100 turns cell
`(0, 2)` — one-based column 3, outside the span — from `EMPTY` into digit
`0`, because the three digits are written from the corner regardless of the
rectangle's width.  The hundred-rectangle encode `ex100` reaches exactly
this state. -/
theorem labelDigits_escape_span :
    drawRect [[-2, -2, -2], [-2, -2, -2]] 100 ⟨1, 1, 2, 2⟩ true =
      .ok [[1, 0, 0], [-1, -1, -2]] ∧
    drawBounds [[-2, -2, -2], [-2, -2, -2]] ⟨1, 1, 2, 2⟩ = [[-1, -1, -2], [-1, -1, -2]] ∧
    getCell [[1, 0, 0], [-1, -1, -2]] 0 2 = 0 ∧
    getCell [[-1, -1, -2], [-1, -1, -2]] 0 2 = EMPTY ∧
    to_array ex100 true = .ok [[1, 0, 0], [-1, -1, -1]] ∧
    (ex100.getD 99 ⟨0, 0, 0, 0⟩).y2 = 2 :=
  ⟨rfl, rfl, rfl, rfl, rfl, rfl⟩

theorem rectPositive_iff (r : Rect) :
    rectPositive r = true ↔ 0 < r.x1 ∧ 0 < r.y1 ∧ 0 < r.x2 ∧ 0 < r.y2 := by
  simp [rectPositive]

theorem rectDegenerate_false_iff (r : Rect) :
    rectDegenerate r = false ↔ r.x1 < r.x2 ∧ r.y1 < r.y2 := by
  simp only [rectDegenerate, decide_eq_false_iff_not]
  omega

/-- C5 (counterexample to the claim as stated): the batch holds the
non-positive rectangle `(0,1,2,3)` and the degenerate rectangle `(2,1,1,3)`,
and construction indeed rejects it — but through the bare positivity
assertion, whose error carries no rectangle list at all, so the promised
enumeration of every invalid rectangle never happens. -/
theorem construct_assert_lists_nothing :
    construct [⟨0, 1, 2, 3⟩, ⟨2, 1, 1, 3⟩] = .error .assertPositive := rfl

/-- C5 (amended): construction succeeds exactly on batches of well-formed
rectangles.  When every coordinate is positive, a batch with degenerate
rectangles is rejected by a `ValueError` listing every degenerate rectangle,
not just the first; but a batch with any non-positive coordinate is rejected
earlier by a bare assertion that lists nothing. -/
theorem construct_validation : ∀ rs : List Rect,
    (construct rs = .ok rs ↔ ∀ r ∈ rs, rectValid r) ∧
    ((∀ r ∈ rs, 0 < r.x1 ∧ 0 < r.y1 ∧ 0 < r.x2 ∧ 0 < r.y2) →
      rs.filter rectDegenerate ≠ [] →
      construct rs = .error (.badRects (rs.filter rectDegenerate))) ∧
    (¬ (∀ r ∈ rs, 0 < r.x1 ∧ 0 < r.y1 ∧ 0 < r.x2 ∧ 0 < r.y2) →
      construct rs = .error .assertPositive) := by
  intro rs
  have hposIff : rs.all rectPositive = true ↔
      ∀ r ∈ rs, 0 < r.x1 ∧ 0 < r.y1 ∧ 0 < r.x2 ∧ 0 < r.y2 := by
    rw [List.all_eq_true]
    constructor
    · intro h r hr; exact (rectPositive_iff r).mp (h r hr)
    · intro h r hr; exact (rectPositive_iff r).mpr (h r hr)
  refine ⟨?_, ?_, ?_⟩
  · constructor
    · intro h r hr
      unfold construct at h
      split at h
      · split at h
        · rename_i hall hbad
          have h1 := (rectPositive_iff r).mp (List.all_eq_true.mp hall r hr)
          have h2 : rectDegenerate r = false := by
            have hnil : rs.filter rectDegenerate = [] := by
              simpa [List.isEmpty_iff] using hbad
            have := List.filter_eq_nil_iff.mp hnil r hr
            simpa using this
          have h3 := (rectDegenerate_false_iff r).mp h2
          exact ⟨h1.1, h1.2.1, h1.2.2.1, h1.2.2.2, h3.1, h3.2⟩
        · exact Except.noConfusion h
      · exact Except.noConfusion h
    · intro h
      unfold construct
      rw [if_pos (hposIff.mpr fun r hr => by
        have := h r hr; exact ⟨this.1, this.2.1, this.2.2.1, this.2.2.2.1⟩)]
      have hnil : rs.filter rectDegenerate = [] := by
        rw [List.filter_eq_nil_iff]
        intro r hr
        have := (rectDegenerate_false_iff r).mpr ⟨(h r hr).2.2.2.2.1, (h r hr).2.2.2.2.2⟩
        simp [this]
      simp [hnil]
  · intro hpos hbad
    unfold construct
    rw [if_pos (hposIff.mpr hpos)]
    have : (rs.filter rectDegenerate).isEmpty = false := by
      cases hf : rs.filter rectDegenerate with
      | nil => exact absurd hf hbad
      | cons a t => rfl
    simp [this]
  · intro hpos
    unfold construct
    rw [if_neg (fun hc => hpos (hposIff.mp hc))]

theorem construct_validation_check :
    construct [⟨2, 1, 1, 3⟩, ⟨1, 1, 2, 2⟩, ⟨3, 3, 3, 9⟩] =
      .error (.badRects [⟨2, 1, 1, 3⟩, ⟨3, 3, 3, 9⟩]) := by
  have h := (construct_validation [⟨2, 1, 1, 3⟩, ⟨1, 1, 2, 2⟩, ⟨3, 3, 3, 9⟩]).2.1
    (by decide) (by decide)
  simpa using h

theorem construct_ok_self {l out : List Rect} (h : construct l = .ok out) : out = l := by
  unfold construct at h
  split at h
  · split at h
    · injection h with h2; exact h2.symm
    · exact Except.noConfusion h
  · exact Except.noConfusion h

theorem construct_ok_valid {l out : List Rect} (h : construct l = .ok out) :
    ∀ r ∈ out, rectValid r := by
  have he := construct_ok_self h
  subst he
  unfold construct at h
  split at h
  · split at h
    · rename_i hall hbad
      intro r hr
      have h1 := (rectPositive_iff r).mp (List.all_eq_true.mp hall r hr)
      have hnil : out.filter rectDegenerate = [] := by
        simpa [List.isEmpty_iff] using hbad
      have h2 : rectDegenerate r = false := by
        simpa using List.filter_eq_nil_iff.mp hnil r hr
      have h3 := (rectDegenerate_false_iff r).mp h2
      exact ⟨h1.1, h1.2.1, h1.2.2.1, h1.2.2.2, h3.1, h3.2⟩
    · exact Except.noConfusion h
  · exact Except.noConfusion h

theorem from_array_ok {g : Grid} {R : List Rect} (h : from_array g = .ok R) :
    to_array R true = .ok g ∧ construct R = .ok R := by
  unfold from_array at h
  split at h
  · exact Except.noConfusion h
  split at h
  · exact Except.noConfusion h
  split at h
  · exact Except.noConfusion h
  split at h
  · exact Except.noConfusion h
  split at h
  · exact Except.noConfusion h
  rename_i rects hscan boxes hpost result hctor
  split at h
  · exact Except.noConfusion h
  rename_i g2 henc
  split at h
  · rename_i heq
    injection h with h2
    subst h2
    have hself := construct_ok_self hctor
    constructor
    · rw [hself] at henc ⊢
      rw [henc, heq]
    · rw [hself] at hctor ⊢
      exact hctor
  · exact Except.noConfusion h

/-- C2: whenever `from_array` succeeds, re-encoding its result with labels
reproduces the input grid cell for cell (the self-verification gate admits
nothing else), and consequently re-encoding the decode of an encoded set
gives back the very same grid. -/
theorem decode_selfVerification :
    (∀ (g : Grid) (R : List Rect), from_array g = .ok R → to_array R true = .ok g) ∧
    (∀ (R R2 : List Rect) (g : Grid), to_array R true = .ok g → from_array g = .ok R2 →
      to_array R2 true = to_array R true) := by
  constructor
  · intro g R h
    exact (from_array_ok h).1
  · intro R R2 g h1 h2
    rw [(from_array_ok h2).1, h1]

theorem decode_selfVerification_check :
    to_array [(⟨1, 1, 2, 3⟩ : Rect)] true = .ok grid1 :=
  decode_selfVerification.1 grid1 [⟨1, 1, 2, 3⟩] rfl

/-- C9: every rectangle set a successful decode returns satisfies the
well-formedness invariant — all coordinates strictly positive and
`x1 < x2`, `y1 < y2` — because the decoder builds its result through the
same validating constructor as caller-supplied input. -/
theorem decode_result_valid :
    ∀ (g : Grid) (R : List Rect), from_array g = .ok R → ∀ r ∈ R, rectValid r := by
  intro g R h
  exact construct_ok_valid (from_array_ok h).2

theorem decode_result_valid_check : rectValid ⟨1, 1, 2, 3⟩ :=
  decode_result_valid grid1 [⟨1, 1, 2, 3⟩] rfl ⟨1, 1, 2, 3⟩ (by simp)

theorem contains_iff_mem (l : List Int) (a : Int) : l.contains a = true ↔ a ∈ l := by
  simp [List.contains, List.elem_iff]

theorem lastElem_mem (a : Int) (l : List Int) : lastElem a l ∈ a :: l := by
  induction l generalizing a with
  | nil => simp [lastElem]
  | cons b t IH =>
    simp only [lastElem]
    exact List.mem_cons_of_mem a (IH b)

theorem le_lastElem (a : Int) (l : List Int)
    (hs : List.Sorted (fun x y => x ≤ y) (a :: l)) :
    ∀ k ∈ a :: l, k ≤ lastElem a l := by
  induction l generalizing a with
  | nil =>
    intro k hk
    simp only [List.mem_singleton] at hk
    simp [lastElem, hk]
  | cons b t IH =>
    intro k hk
    obtain ⟨hab, hs2⟩ := List.sorted_cons.mp hs
    simp only [lastElem]
    rcases List.mem_cons.mp hk with rfl | hk2
    · exact le_trans (hab b (by simp)) (IH b hs2 b (by simp))
    · exact IH b hs2 k hk2

theorem head_le_sorted (a : Int) (l : List Int)
    (hs : List.Sorted (fun x y => x ≤ y) (a :: l)) :
    ∀ k ∈ a :: l, a ≤ k := by
  intro k hk
  rcases List.mem_cons.mp hk with rfl | hk2
  · exact le_refl k
  · exact (List.sorted_cons.mp hs).1 k hk2

theorem mem_intRange {a lo hi : Int} : a ∈ intRange lo hi ↔ lo ≤ a ∧ a ≤ hi := by
  unfold intRange
  simp only [List.mem_map, List.mem_range]
  constructor
  · rintro ⟨i, hi2, rfl⟩
    omega
  · intro h
    exact ⟨(a - lo).toNat, by omega, by omega⟩

theorem intRange_nodup (lo hi : Int) : (intRange lo hi).Nodup := by
  have hinj : Function.Injective (fun i : Nat => lo + (i : Int)) := by
    intro i j hij
    simp only at hij
    omega
  exact List.Nodup.map hinj (List.nodup_range _)

theorem postProcess_cons (rects : List (Int × Box)) (n0 : Int) (rest : List Int)
    (h : List.insertionSort (fun a b => a ≤ b) (dictKeys rects) = n0 :: rest) :
    postProcess rects =
      if (n0 :: rest).length ≠ (intRange n0 (lastElem n0 rest)).length then
        .error (.labelGap
          ((intRange n0 (lastElem n0 rest)).filter fun a => ¬ (n0 :: rest).contains a))
      else .ok ((n0 :: rest).map fun n => lookupBox rects n) := by
  unfold postProcess
  rw [h]

theorem dictKeys_dictInsert_nodup {l : List (Int × Box)} {k : Int} {v : Box}
    (h : (dictKeys l).Nodup) : (dictKeys (dictInsert l k v)).Nodup := by
  unfold dictInsert
  split
  · have hkeys : dictKeys (l.map fun p => if p.1 = k then (k, v) else p) = dictKeys l := by
      unfold dictKeys
      rw [List.map_map]
      refine List.map_congr_left ?_
      intro p _
      by_cases hp : p.1 = k <;> simp [hp]
    rw [hkeys]
    exact h
  · rename_i hna
    unfold dictKeys
    rw [List.map_append, List.nodup_append]
    refine ⟨h, by simp, ?_⟩
    intro x hx hx2
    simp only [List.map_cons, List.map_nil, List.mem_singleton] at hx2
    subst hx2
    apply hna
    rw [List.any_eq_true]
    obtain ⟨p, hp, hpf⟩ := List.mem_map.mp hx
    exact ⟨p, hp, by simp [hpf]⟩

theorem scanLoopAux_nodup (H W : Nat) :
    ∀ (fuel : Nat) (g : Grid) (acc res : List (Int × Box)),
      scanLoopAux H W fuel g acc = .ok res →
      (dictKeys acc).Nodup → (dictKeys res).Nodup := by
  intro fuel
  induction fuel with
  | zero =>
    intro g acc res h _
    exact Except.noConfusion h
  | succ n IH =>
    intro g acc res h hacc
    rw [scanLoopAux] at h
    split at h
    · injection h with h2
      rw [← h2]
      exact hacc
    · split at h
      · split at h
        · exact Except.noConfusion h
        · split at h
          · exact Except.noConfusion h
          · exact IH _ _ _ h (dictKeys_dictInsert_nodup hacc)
      · exact Except.noConfusion h

theorem scanLoop_keys_nodup {g : Grid} {rects : List (Int × Box)}
    (h : scanLoop g = .ok rects) : (dictKeys rects).Nodup := by
  unfold scanLoop at h
  exact scanLoopAux_nodup _ _ _ _ _ _ h (by simp [dictKeys])

theorem postProcess_gap (rects : List (Int × Box)) (hne : rects ≠ [])
    (hnd : (dictKeys rects).Nodup) :
    (theMissing rects = [] → ∃ bs, postProcess rects = .ok bs) ∧
    (theMissing rects ≠ [] → postProcess rects = .error (.labelGap (theMissing rects))) := by
  cases hsort : List.insertionSort (fun a b => a ≤ b) (dictKeys rects) with
  | nil =>
    exfalso
    have hperm := List.perm_insertionSort (fun a b => a ≤ b) (dictKeys rects)
    rw [hsort] at hperm
    have hkeys : dictKeys rects = [] := hperm.symm.eq_nil
    unfold dictKeys at hkeys
    exact hne (List.map_eq_nil_iff.mp hkeys)
  | cons n0 rest =>
    have hperm := List.perm_insertionSort (fun a b => a ≤ b) (dictKeys rects)
    rw [hsort] at hperm
    have hnodup : (n0 :: rest).Nodup := hperm.nodup_iff.mpr hnd
    have hsorted : List.Sorted (fun a b => a ≤ b) (n0 :: rest) := by
      rw [← hsort]
      exact List.sorted_insertionSort _ _
    have hsub : (n0 :: rest) ⊆ intRange n0 (lastElem n0 rest) := by
      intro k hk
      exact mem_intRange.mpr
        ⟨head_le_sorted n0 rest hsorted k hk, le_lastElem n0 rest hsorted k hk⟩
    have hsubperm := hnodup.subperm hsub
    have hlen := hsubperm.length_le
    have hmissdef : theMissing rects =
        (intRange n0 (lastElem n0 rest)).filter fun a => ¬ (n0 :: rest).contains a := by
      unfold theMissing
      rw [hsort]
    constructor
    · intro hm
      rw [hmissdef] at hm
      have hsup : intRange n0 (lastElem n0 rest) ⊆ (n0 :: rest) := by
        intro a ha
        have hfa := List.filter_eq_nil_iff.mp hm a ha
        simp only [decide_eq_true_eq, Decidable.not_not] at hfa
        exact (contains_iff_mem _ _).mp hfa
      have hlen2 := ((intRange_nodup n0 (lastElem n0 rest)).subperm hsup).length_le
      rw [postProcess_cons rects n0 rest hsort,
        if_neg (show ¬ _ from Decidable.not_not.mpr (by omega))]
      exact ⟨_, rfl⟩
    · intro hm
      rw [hmissdef] at hm
      have hneq : (n0 :: rest).length ≠ (intRange n0 (lastElem n0 rest)).length := by
        intro heq
        have hpermAll := hsubperm.perm_of_length_le (by omega)
        apply hm
        rw [List.filter_eq_nil_iff]
        intro a ha
        simp only [decide_eq_true_eq, Decidable.not_not]
        exact (contains_iff_mem _ _).mpr (hpermAll.mem_iff.mpr ha)
      rw [postProcess_cons rects n0 rest hsort, if_pos hneq, hmissdef]

/-- C7: after the scan loop has consumed every labeled rectangle, the
collected labels must fill the whole range from the smallest to the largest
label found; a gap makes `postProcess` fail with the `ValueError` listing
exactly the labels absent from that range, as on the concrete grid carrying
labels 1 and 3 whose decode fails listing `[2]`. -/
theorem label_gap_detection :
    (∀ (g : Grid) (rects : List (Int × Box)), scanLoop g = .ok rects → rects ≠ [] →
      ((theMissing rects = [] → ∃ bs, postProcess rects = .ok bs) ∧
       (theMissing rects ≠ [] → postProcess rects = .error (.labelGap (theMissing rects))))) ∧
    from_array grid13 = .error (.labelGap [2]) := by
  refine ⟨?_, rfl⟩
  intro g rects h hne
  exact postProcess_gap rects hne (scanLoop_keys_nodup h)

theorem label_gap_detection_check :
    theMissing [((1 : Int), ((0, 0, 1, 2) : Box)), (3, (0, 4, 1, 6))] = [2] ∧
    postProcess [((1 : Int), ((0, 0, 1, 2) : Box)), (3, (0, 4, 1, 6))] =
      .error (.labelGap (theMissing [((1 : Int), ((0, 0, 1, 2) : Box)), (3, (0, 4, 1, 6))])) :=
  ⟨by decide,
   (label_gap_detection.1 grid13 [((1 : Int), ((0, 0, 1, 2) : Box)), (3, (0, 4, 1, 6))]
      rfl (by decide)).2 (by decide)⟩

theorem parseCellChar_ok {c : Char} (h : recognizedChar c = true) :
    parseCellChar c = .ok (charVal c) := by
  unfold parseCellChar charVal
  by_cases h1 : c = ' '
  · simp [h1]
  · by_cases h2 : c = '#'
    · simp [h1, h2]
    · have h3 : (pyDecimalVal c).isSome = true := by
        unfold recognizedChar at h
        rcases Bool.or_eq_true_iff.mp h with h4 | h4
        · rcases Bool.or_eq_true_iff.mp h4 with h5 | h5
          · exact absurd (beq_iff_eq.mp h5) h1
          · exact absurd (beq_iff_eq.mp h5) h2
        · exact h4
      obtain ⟨d, hd⟩ := Option.isSome_iff_exists.mp h3
      simp [h1, h2, hd]

theorem parseCellChar_err {c : Char} (h : recognizedChar c = false) :
    parseCellChar c = .error (.badChar c) := by
  unfold recognizedChar at h
  simp only [Bool.or_eq_false_iff, beq_eq_false_iff_ne, ne_eq] at h
  obtain ⟨⟨h1, h2⟩, h3⟩ := h
  have hnone : pyDecimalVal c = none := by
    cases ho : pyDecimalVal c with
    | none => rfl
    | some d =>
      rw [ho] at h3
      exact absurd h3 (by simp)
  unfold parseCellChar
  rw [if_neg h1, if_neg h2, hnone]

theorem parseCellChar_ok_rec {c : Char} {v : Int} (h : parseCellChar c = .ok v) :
    recognizedChar c = true := by
  by_cases hb : recognizedChar c = true
  · exact hb
  · rw [parseCellChar_err (Bool.eq_false_iff.mpr hb)] at h
    exact Except.noConfusion h

theorem parseLine_ok_of (l : List Char) (h : ∀ c ∈ l, recognizedChar c = true) :
    parseLine l = .ok (l.map charVal) := by
  induction l with
  | nil => rfl
  | cons c cs IH =>
    unfold parseLine
    rw [parseCellChar_ok (h c (by simp)), IH (fun x hx => h x (by simp [hx]))]
    rfl

theorem parseLine_ok_iff (l : List Char) :
    (∃ r, parseLine l = .ok r) ↔ ∀ c ∈ l, recognizedChar c = true := by
  induction l with
  | nil => exact ⟨fun _ => by simp, fun _ => ⟨[], rfl⟩⟩
  | cons c cs IH =>
    constructor
    · rintro ⟨r, hr⟩
      unfold parseLine at hr
      cases hpc : parseCellChar c with
      | error e =>
        rw [hpc] at hr
        exact Except.noConfusion hr
      | ok v =>
        rw [hpc] at hr
        cases hpl : parseLine cs with
        | error e =>
          rw [hpl] at hr
          exact Except.noConfusion hr
        | ok vs =>
          intro x hx
          rcases List.mem_cons.mp hx with rfl | hx2
          · exact parseCellChar_ok_rec hpc
          · exact (IH.mp ⟨vs, hpl⟩) x hx2
    · intro h
      exact ⟨_, parseLine_ok_of (c :: cs) h⟩

theorem parseLine_ok_val {l : List Char} {r : List Int} (h : parseLine l = .ok r) :
    r = l.map charVal := by
  have hrec := (parseLine_ok_iff l).mp ⟨r, h⟩
  rw [parseLine_ok_of l hrec] at h
  injection h with h2
  exact h2.symm

theorem parseLines_ok_of (ls : List (List Char))
    (h : ∀ l ∈ ls, ∀ c ∈ l, recognizedChar c = true) :
    parseLines ls = .ok (ls.map fun l => l.map charVal) := by
  induction ls with
  | nil => rfl
  | cons l t IH =>
    unfold parseLines
    rw [parseLine_ok_of l (h l (by simp)), IH (fun x hx => h x (by simp [hx]))]
    rfl

theorem parseLines_ok_iff (ls : List (List Char)) :
    (∃ rs, parseLines ls = .ok rs) ↔ ∀ l ∈ ls, ∀ c ∈ l, recognizedChar c = true := by
  induction ls with
  | nil => exact ⟨fun _ => by simp, fun _ => ⟨[], rfl⟩⟩
  | cons l t IH =>
    constructor
    · rintro ⟨rs, hr⟩
      unfold parseLines at hr
      cases hpl : parseLine l with
      | error e =>
        rw [hpl] at hr
        exact Except.noConfusion hr
      | ok v =>
        rw [hpl] at hr
        cases hpt : parseLines t with
        | error e =>
          rw [hpt] at hr
          exact Except.noConfusion hr
        | ok vs =>
          intro x hx
          rcases List.mem_cons.mp hx with rfl | hx2
          · exact (parseLine_ok_iff x).mp ⟨v, hpl⟩
          · exact (IH.mp ⟨vs, hpt⟩) x hx2
    · intro h
      exact ⟨_, parseLines_ok_of (l :: t) h⟩

theorem parseLines_ok_val {ls : List (List Char)} {rs : List (List Int)}
    (h : parseLines ls = .ok rs) : rs = ls.map fun l => l.map charVal := by
  have hrec := (parseLines_ok_iff ls).mp ⟨rs, h⟩
  rw [parseLines_ok_of ls hrec] at h
  injection h with h2
  exact h2.symm

theorem parseGrid_err {s : String} {e : Err}
    (h : parseLines (pySplitlines (pyStrip s.data)) = .error e) : parseGrid s = .error e := by
  unfold parseGrid
  rw [h]

theorem parseGrid_ok_nil {s : String}
    (h : parseLines (pySplitlines (pyStrip s.data)) = .ok []) : parseGrid s = .ok [] := by
  unfold parseGrid
  rw [h]

theorem parseGrid_ok_cons {s : String} {r : List Int} {rs : List (List Int)}
    (h : parseLines (pySplitlines (pyStrip s.data)) = .ok (r :: rs)) :
    parseGrid s =
      if rs.all (fun l => l.length = r.length) then .ok (r :: rs) else .error .ragged := by
  unfold parseGrid
  rw [h]

/-- C4 (amended): converting a text block succeeds exactly when, after the
whole-string strip, every line — as Python `splitlines` divides lines —
has the same length and every character is a recognized symbol, where the
digits are the full set of Unicode decimal digits `int()` converts; on
success the cells are `' '` to `EMPTY`, `'#'` to `BOUND`, digits to their
values.  Any violation fails — but through Python's `int()` error or
numpy's inhomogeneous-shape error, neither of which names the offending
line or column. -/
theorem parse_accepts_iff : ∀ s : String,
    ((∃ g, parseGrid s = .ok g) ↔
      ((∀ l ∈ pySplitlines (pyStrip s.data), ∀ c ∈ l, recognizedChar c = true) ∧
       (∀ l1 ∈ pySplitlines (pyStrip s.data), ∀ l2 ∈ pySplitlines (pyStrip s.data),
         l1.length = l2.length))) ∧
    (∀ g, parseGrid s = .ok g →
      g = (pySplitlines (pyStrip s.data)).map fun l => l.map charVal) := by
  intro s
  cases hp : parseLines (pySplitlines (pyStrip s.data)) with
  | error e =>
    have hpg := parseGrid_err hp
    constructor
    · constructor
      · rintro ⟨g, hg⟩
        rw [hpg] at hg
        exact Except.noConfusion hg
      · rintro ⟨hrec, _⟩
        obtain ⟨rs, hrs⟩ := (parseLines_ok_iff _).mpr hrec
        rw [hp] at hrs
        exact Except.noConfusion hrs
    · intro g hg
      rw [hpg] at hg
      exact Except.noConfusion hg
  | ok rows =>
    have hval := parseLines_ok_val hp
    have hrec := (parseLines_ok_iff _).mp ⟨rows, hp⟩
    cases rows with
    | nil =>
      have hlsnil : pySplitlines (pyStrip s.data) = [] := List.map_eq_nil_iff.mp hval.symm
      have hpg := parseGrid_ok_nil hp
      constructor
      · constructor
        · intro _
          constructor
          · rw [hlsnil]; intro l hl; exact absurd hl (List.not_mem_nil l)
          · rw [hlsnil]; intro l1 h1; exact absurd h1 (List.not_mem_nil l1)
        · intro _
          exact ⟨[], hpg⟩
      · intro g hg
        rw [hpg] at hg
        injection hg with h2
        rw [← h2, hlsnil]
        rfl
    | cons r rs =>
      have hpg := parseGrid_ok_cons hp
      cases hls : pySplitlines (pyStrip s.data) with
      | nil =>
        rw [hls] at hval
        exact absurd hval (by simp)
      | cons l0 lrest =>
        rw [hls] at hval hrec
        rw [List.map_cons] at hval
        injection hval with hr0 hrs0
        subst hr0
        subst hrs0
        have hcond : ((lrest.map fun l => l.map charVal).all
            fun l => l.length = (l0.map charVal).length) = true ↔
            ∀ l ∈ lrest, l.length = l0.length := by
          rw [List.all_eq_true]
          constructor
          · intro hx l hl
            have := hx (l.map charVal) (List.mem_map_of_mem _ hl)
            simpa using this
          · intro hx l hl
            obtain ⟨l2, hl2, rfl⟩ := List.mem_map.mp hl
            simpa using hx l2 hl2
        by_cases hc : ∀ l ∈ lrest, l.length = l0.length
        · rw [if_pos (hcond.mpr hc)] at hpg
          have haux : ∀ l ∈ l0 :: lrest, l.length = l0.length := by
            intro l hl
            rcases List.mem_cons.mp hl with rfl | hl2
            · rfl
            · exact hc l hl2
          constructor
          · constructor
            · intro _
              constructor
              · exact hrec
              · intro l1 h1 l2 h2
                rw [haux l1 h1, haux l2 h2]
            · intro _
              exact ⟨_, hpg⟩
          · intro g hg
            rw [hpg] at hg
            injection hg with h2
            rw [← h2, List.map_cons]
        · rw [if_neg (fun hcc => hc (hcond.mp hcc))] at hpg
          constructor
          · constructor
            · rintro ⟨g, hg⟩
              rw [hpg] at hg
              exact Except.noConfusion hg
            · rintro ⟨_, hlen⟩
              exfalso
              apply hc
              intro l hl
              exact hlen l (List.mem_cons_of_mem l0 hl) l0 (List.mem_cons_self l0 lrest)
          · intro g hg
            rw [hpg] at hg
            exact Except.noConfusion hg

theorem parse_accepts_iff_check :
    parseGrid strOk = .ok [[1, -1, -1], [-1, -1, -1]] ∧
    ([[(1 : Int), -1, -1], [-1, -1, -1]] =
      (pySplitlines (pyStrip strOk.data)).map fun l => l.map charVal) ∧
    parseGrid strCR = .ok [[1, -1, -1], [-1, -1, -1]] ∧
    parseGrid strUni = .ok [[1, -1, -1], [-1, -1, -1]] ∧
    from_string strCR = .ok [⟨1, 1, 2, 3⟩] ∧
    from_string strUni = .ok [⟨1, 1, 2, 3⟩] :=
  ⟨rfl, (parse_accepts_iff strOk).2 [[1, -1, -1], [-1, -1, -1]] rfl, rfl, rfl, rfl, rfl⟩

/-- C4 (counterexample to the claim as stated): different offending
positions produce literally identical errors, so the parse error cannot be
naming the offending line and column.  `strBadA` has its bad character at
line 0 column 0 and `strBadB` at line 0 column 1, yet both fail with the
same `int()` error carrying only the character; `strRagA` and `strRagB`
have their length anomalies in different places, yet both fail with the
same positionless shape error. -/
theorem parseError_position_blind :
    parseGrid strBadA = .error (.badChar 'x') ∧
    parseGrid strBadB = .error (.badChar 'x') ∧
    strBadA.data.getD 0 ' ' = 'x' ∧ strBadB.data.getD 1 ' ' = 'x' ∧
    parseGrid strRagA = .error .ragged ∧
    parseGrid strRagB = .error .ragged ∧
    (pySplitlines (pyStrip strRagA.data)).map List.length = [2, 1] ∧
    (pySplitlines (pyStrip strRagB.data)).map List.length = [1, 2] :=
  ⟨rfl, rfl, rfl, rfl, rfl, rfl, rfl, rfl⟩
